import Mathlib

/-
Verification of the BFQ I/O-scheduler core found in block/bfq-iosched.c.

The embedding below translates, function by function, the parts of the C
source that the verified properties are about:

* `bfq_choose_req` (next-request chooser, lines 209-297),
* `bfq_serv_to_charge` (service charging, lines 467-474),
* `bfq_updated_next_req` (budget refresh on a next_rq change, lines 487-516),
* `bfq_weights_tree_add` / `bfq_weights_tree_remove` (lines 367-441),
* the burst machinery `bfq_reset_burst_list`, `bfq_add_to_burst`,
  `bfq_handle_burst` (lines 531-742), and
* the weight-raising update performed by `bfq_add_request` on an
  idle-to-busy transition (lines 796-909).

Machine integers (sector_t, unsigned long) are modelled as `Nat`; all the
arithmetic performed by the functions above stays far below 2^64 for any
realistic sector address and tunable value, so wrap-around is immaterial.
Pointers to requests are modelled as `Option Request`, pointer identity as
a numeric `id` field. Kernel jiffies are a `Nat` parameter; the macro
time_is_before_jiffies(t) is `t < jiffies`. The red-black trees of weight
counters are modelled as lists of (weight, num_active) pairs sorted by
weight, and the hlist burst list as a list of queue identifiers.
-/

set_option maxHeartbeats 1000000
set_option linter.unusedVariables false

namespace BFQ

/-- A block-layer request as consumed by the embedded functions: start
sector (blk_rq_pos), size in sectors (blk_rq_sectors), the sync
classification (rq_is_sync) and the metadata flag (cmd_flags and REQ_META).
The `id` field stands for the identity of the underlying struct request
object, so two distinct requests may carry identical attributes. -/
structure Request where
  id : Nat
  pos : Nat
  sectors : Nat
  sync : Bool
  meta : Bool
deriving DecidableEq, Repr

/-- The bfq_data tunables read by bfq_choose_req: maximum backward seek in
KiB (bfq_back_max) and the backward-seek penalty (bfq_back_penalty).
The function itself converts bfq_back_max to sectors (times 2). -/
structure BfqData where
  bfq_back_max : Nat
  bfq_back_penalty : Nat
deriving DecidableEq, Repr

/-- The distance computation of bfq_choose_req, lines 247-259, for one
request at start sector `s`: a pair (distance, wrap bit). Forward seeks
cost their length, backward seeks within `bfq_back_max * 2` sectors cost
the length times bfq_back_penalty, and anything farther behind the head
sets the corresponding wrap bit (and leaves the distance at its initial
value 0). -/
def bfq_pos_dist (bfqd : BfqData) (last s : Nat) : Nat × Bool :=
  if last ≤ s then (s - last, false)
  else if last ≤ s + bfqd.bfq_back_max * 2 then
    ((last - s) * bfqd.bfq_back_penalty, false)
  else (0, true)

/-- Core of bfq_choose_req (lines 225-296) on two non-null, distinct
requests: sync preference, then REQ_META preference, then the switch on
the wrap bit mask. -/
def bfq_choose_req_core (bfqd : BfqData) (r1 r2 : Request) (last : Nat) :
    Request :=
  if r1.sync && !r2.sync then r1
  else if r2.sync && !r1.sync then r2
  else if r1.meta && !r2.meta then r1
  else if r2.meta && !r1.meta then r2
  else
    match bfq_pos_dist bfqd last r1.pos, bfq_pos_dist bfqd last r2.pos with
    | (d1, false), (d2, false) =>
      if d1 < d2 then r1
      else if d2 < d1 then r2
      else if r2.pos ≤ r1.pos then r1 else r2
    | (_, false), (_, true) => r1
    | (_, true), (_, false) => r2
    | (_, true), (_, true) => if r1.pos ≤ r2.pos then r1 else r2

/-- bfq_choose_req, lines 209-297: the null and aliasing early exits of
lines 220-223 followed by the core comparison. -/
def bfq_choose_req (bfqd : BfqData) (rq1 rq2 : Option Request) (last : Nat) :
    Option Request :=
  if rq1 = none ∨ rq1 = rq2 then rq2
  else if rq2 = none then rq1
  else
    match rq1, rq2 with
    | some r1, some r2 => some (bfq_choose_req_core bfqd r1 r2 last)
    | _, _ => rq2

/-- Whether a request starting at sector `s` is treated as wrapping around
by bfq_choose_req: it lies behind the head and farther back than the
back-seek allowance (the fall-through to lines 252/259). -/
def bfq_rq_wraps (back_max last s : Nat) : Bool :=
  decide (s < last) && decide (s + back_max < last)

/-- The seek distance bfq_choose_req assigns to a non-wrapping request at
start sector `s`: `s - last` forward, `(last - s) * penalty` backward. -/
def bfq_rq_dist (back_max penalty last s : Nat) : Nat :=
  if last ≤ s then s - last else (last - s) * penalty

theorem bfq_pos_dist_of_not_wraps (bfqd : BfqData) (last s : Nat)
    (h : bfq_rq_wraps (bfqd.bfq_back_max * 2) last s = false) :
    bfq_pos_dist bfqd last s =
      (bfq_rq_dist (bfqd.bfq_back_max * 2) bfqd.bfq_back_penalty last s,
       false) := by
  unfold bfq_rq_wraps at h
  unfold bfq_pos_dist bfq_rq_dist
  by_cases hl : last ≤ s
  · simp [hl]
  · have hs : s < last := Nat.lt_of_not_le hl
    have hb : last ≤ s + bfqd.bfq_back_max * 2 := by
      rcases Bool.and_eq_false_iff.mp h with h1 | h2
      · exact absurd (decide_eq_true hs) (by simp [h1])
      · have := of_decide_eq_false h2
        omega
    simp [hl, hb]

theorem bfq_pos_dist_of_wraps (bfqd : BfqData) (last s : Nat)
    (h : bfq_rq_wraps (bfqd.bfq_back_max * 2) last s = true) :
    bfq_pos_dist bfqd last s = (0, true) := by
  unfold bfq_rq_wraps at h
  have h1 : s < last := of_decide_eq_true (Bool.and_elim_left h)
  have h2 : s + bfqd.bfq_back_max * 2 < last :=
    of_decide_eq_true (Bool.and_elim_right h)
  unfold bfq_pos_dist
  simp [Nat.not_le_of_lt h1, Nat.not_le_of_lt h2]

theorem bfq_choose_req_core_mem (bfqd : BfqData) (r1 r2 : Request)
    (last : Nat) :
    bfq_choose_req_core bfqd r1 r2 last = r1 ∨
    bfq_choose_req_core bfqd r1 r2 last = r2 := by
  unfold bfq_choose_req_core
  repeat' split
  all_goals simp

theorem bfq_choose_req_some_some (bfqd : BfqData) (r1 r2 : Request)
    (last : Nat) (h : r1 ≠ r2) :
    bfq_choose_req bfqd (some r1) (some r2) last =
      some (bfq_choose_req_core bfqd r1 r2 last) := by
  unfold bfq_choose_req
  simp [h]

theorem bfq_choose_req_core_dist (bfqd : BfqData) (r1 r2 : Request)
    (last : Nat) (hs : r1.sync = r2.sync) (hm : r1.meta = r2.meta) :
    bfq_choose_req_core bfqd r1 r2 last =
      match bfq_pos_dist bfqd last r1.pos, bfq_pos_dist bfqd last r2.pos with
      | (d1, false), (d2, false) =>
        if d1 < d2 then r1
        else if d2 < d1 then r2
        else if r2.pos ≤ r1.pos then r1 else r2
      | (_, false), (_, true) => r1
      | (_, true), (_, false) => r2
      | (_, true), (_, true) => if r1.pos ≤ r2.pos then r1 else r2 := by
  unfold bfq_choose_req_core
  rw [hs, hm]
  simp [Bool.and_not_self]

/-- C9: bfq_choose_req never invents a request: the result is always one
of its two arguments; a null or aliased rq1 yields rq2, a null rq2 with a
non-null rq1 yields rq1, and the result is non-null whenever at least one
argument is. -/
theorem bfq_choose_req_total (bfqd : BfqData) (rq1 rq2 : Option Request)
    (last : Nat) :
    (bfq_choose_req bfqd rq1 rq2 last = rq1 ∨
     bfq_choose_req bfqd rq1 rq2 last = rq2) ∧
    (rq1 = none ∨ rq1 = rq2 → bfq_choose_req bfqd rq1 rq2 last = rq2) ∧
    (rq2 = none → rq1 ≠ none → bfq_choose_req bfqd rq1 rq2 last = rq1) ∧
    (rq1 ≠ none ∨ rq2 ≠ none → bfq_choose_req bfqd rq1 rq2 last ≠ none) := by
  by_cases h0 : rq1 = none ∨ rq1 = rq2
  · have hc : bfq_choose_req bfqd rq1 rq2 last = rq2 := by
      unfold bfq_choose_req; rw [if_pos h0]
    refine ⟨Or.inr hc, fun _ => hc, ?_, ?_⟩
    · intro h2 h1
      rcases h0 with h | h
      · exact absurd h h1
      · rw [hc, ← h]
    · intro h
      rw [hc]
      rcases h0 with h' | h'
      · rcases h with h | h
        · exact absurd h' h
        · exact h
      · rcases h with h | h
        · rw [← h']; exact h
        · exact h
  · have h0n := not_or.mp h0
    obtain ⟨h1, h12⟩ := h0n
    by_cases h2 : rq2 = none
    · have hc : bfq_choose_req bfqd rq1 rq2 last = rq1 := by
        unfold bfq_choose_req
        rw [if_neg h0, if_pos h2]
      exact ⟨Or.inl hc, fun h => absurd h h0,
             fun _ _ => hc, fun _ => by rw [hc]; exact h1⟩
    · obtain ⟨r1, rfl⟩ := Option.ne_none_iff_exists'.mp h1
      obtain ⟨r2, rfl⟩ := Option.ne_none_iff_exists'.mp h2
      have hr : r1 ≠ r2 := fun h => h12 (by rw [h])
      have hc := bfq_choose_req_some_some bfqd r1 r2 last hr
      refine ⟨?_, fun h => absurd h h0, fun h _ => absurd h h2,
              fun _ => by rw [hc]; simp⟩
      rcases bfq_choose_req_core_mem bfqd r1 r2 last with h | h
      · exact Or.inl (by rw [hc, h])
      · exact Or.inr (by rw [hc, h])

def c9rq : Request := ⟨1, 500, 8, true, false⟩

theorem bfq_choose_req_total_witness :
    ((none : Option Request) ≠ none ∨ some c9rq ≠ none) ∧
    bfq_choose_req ⟨16384, 2⟩ none (some c9rq) 0 ≠ none :=
  ⟨Or.inr (by simp),
   (bfq_choose_req_total ⟨16384, 2⟩ none (some c9rq) 0).2.2.2
     (Or.inr (by simp))⟩

/-- The bfq_data of the back-seek scenario: a back_max of 1000 KiB, which
the KiB-to-sector conversion of line 240 turns into 2000 sectors, and the
default back_penalty 2. -/
def bfqd_backseek : BfqData := ⟨1000, 2⟩

def rq_backseek1 : Request := ⟨1, 2000, 8, true, false⟩

def rq_backseek2 : Request := ⟨2, 900, 8, true, false⟩

/-- C8: in the literal back-seek scenario (head at 1000, r1 at sector
2000, r2 at sector 900, back-seek allowance 2000 sectors, penalty 2, both
requests sync with equal metadata flags) the distances are d1 = 1000 and
d2 = (1000 - 900) * 2 = 200 and bfq_choose_req returns r2. -/
theorem bfq_choose_req_backseek :
    bfq_rq_dist 2000 2 1000 rq_backseek1.pos = 1000 ∧
    bfq_rq_dist 2000 2 1000 rq_backseek2.pos = 200 ∧
    bfq_rq_wraps 2000 1000 rq_backseek1.pos = false ∧
    bfq_rq_wraps 2000 1000 rq_backseek2.pos = false ∧
    bfq_choose_req bfqd_backseek (some rq_backseek1) (some rq_backseek2) 1000
      = some rq_backseek2 := by
  decide

/-- C1: for two pending (non-null) requests the chooser prefers, in
order: sync over async; REQ_META-flagged over plain; then the smaller
distance from the head position `last`, where a forward distance is
`sector - last`, a backward distance within the back-seek allowance is
`(last - sector) * bfq_back_penalty`, a request farther behind the head
than the allowance wraps around and loses to any non-wrapping request;
and when both requests wrap around the one with the smaller start sector
is returned. -/
theorem bfq_choose_req_preference (bfqd : BfqData) (r1 r2 : Request)
    (last : Nat) :
    (r1.sync = true → r2.sync = false →
      bfq_choose_req bfqd (some r1) (some r2) last = some r1) ∧
    (r2.sync = true → r1.sync = false →
      bfq_choose_req bfqd (some r1) (some r2) last = some r2) ∧
    (r1.sync = r2.sync → r1.meta = true → r2.meta = false →
      bfq_choose_req bfqd (some r1) (some r2) last = some r1) ∧
    (r1.sync = r2.sync → r2.meta = true → r1.meta = false →
      bfq_choose_req bfqd (some r1) (some r2) last = some r2) ∧
    (r1.sync = r2.sync → r1.meta = r2.meta →
      bfq_rq_wraps (bfqd.bfq_back_max * 2) last r1.pos = false →
      bfq_rq_wraps (bfqd.bfq_back_max * 2) last r2.pos = false →
      bfq_rq_dist (bfqd.bfq_back_max * 2) bfqd.bfq_back_penalty last r1.pos <
        bfq_rq_dist (bfqd.bfq_back_max * 2) bfqd.bfq_back_penalty last r2.pos →
      bfq_choose_req bfqd (some r1) (some r2) last = some r1) ∧
    (r1.sync = r2.sync → r1.meta = r2.meta →
      bfq_rq_wraps (bfqd.bfq_back_max * 2) last r1.pos = false →
      bfq_rq_wraps (bfqd.bfq_back_max * 2) last r2.pos = false →
      bfq_rq_dist (bfqd.bfq_back_max * 2) bfqd.bfq_back_penalty last r2.pos <
        bfq_rq_dist (bfqd.bfq_back_max * 2) bfqd.bfq_back_penalty last r1.pos →
      bfq_choose_req bfqd (some r1) (some r2) last = some r2) ∧
    (r1.sync = r2.sync → r1.meta = r2.meta →
      bfq_rq_wraps (bfqd.bfq_back_max * 2) last r1.pos = false →
      bfq_rq_wraps (bfqd.bfq_back_max * 2) last r2.pos = true →
      bfq_choose_req bfqd (some r1) (some r2) last = some r1) ∧
    (r1.sync = r2.sync → r1.meta = r2.meta →
      bfq_rq_wraps (bfqd.bfq_back_max * 2) last r1.pos = true →
      bfq_rq_wraps (bfqd.bfq_back_max * 2) last r2.pos = false →
      bfq_choose_req bfqd (some r1) (some r2) last = some r2) ∧
    (r1.sync = r2.sync → r1.meta = r2.meta →
      bfq_rq_wraps (bfqd.bfq_back_max * 2) last r1.pos = true →
      bfq_rq_wraps (bfqd.bfq_back_max * 2) last r2.pos = true →
      r1.pos < r2.pos →
      bfq_choose_req bfqd (some r1) (some r2) last = some r1) ∧
    (r1.sync = r2.sync → r1.meta = r2.meta →
      bfq_rq_wraps (bfqd.bfq_back_max * 2) last r1.pos = true →
      bfq_rq_wraps (bfqd.bfq_back_max * 2) last r2.pos = true →
      r2.pos < r1.pos →
      bfq_choose_req bfqd (some r1) (some r2) last = some r2) := by
  refine ⟨?_, ?_, ?_, ?_, ?_, ?_, ?_, ?_, ?_, ?_⟩
  · intro hs1 hs2
    have hne : r1 ≠ r2 := fun h => by simp [h, hs2] at hs1
    rw [bfq_choose_req_some_some bfqd r1 r2 last hne]
    simp [bfq_choose_req_core, hs1, hs2]
  · intro hs2 hs1
    have hne : r1 ≠ r2 := fun h => by simp [h, hs2] at hs1
    rw [bfq_choose_req_some_some bfqd r1 r2 last hne]
    simp [bfq_choose_req_core, hs1, hs2]
  · intro hs hm1 hm2
    have hne : r1 ≠ r2 := fun h => by simp [h, hm2] at hm1
    rw [bfq_choose_req_some_some bfqd r1 r2 last hne]
    simp [bfq_choose_req_core, hs, hm1, hm2, Bool.and_not_self]
  · intro hs hm2 hm1
    have hne : r1 ≠ r2 := fun h => by simp [h, hm2] at hm1
    rw [bfq_choose_req_some_some bfqd r1 r2 last hne]
    simp [bfq_choose_req_core, hs, hm1, hm2, Bool.and_not_self]
  · intro hs hm hw1 hw2 hlt
    have hne : r1 ≠ r2 := fun h => by rw [h] at hlt; exact lt_irrefl _ hlt
    rw [bfq_choose_req_some_some bfqd r1 r2 last hne,
        bfq_choose_req_core_dist bfqd r1 r2 last hs hm,
        bfq_pos_dist_of_not_wraps bfqd last r1.pos hw1,
        bfq_pos_dist_of_not_wraps bfqd last r2.pos hw2]
    simp [hlt]
  · intro hs hm hw1 hw2 hlt
    have hne : r1 ≠ r2 := fun h => by rw [h] at hlt; exact lt_irrefl _ hlt
    rw [bfq_choose_req_some_some bfqd r1 r2 last hne,
        bfq_choose_req_core_dist bfqd r1 r2 last hs hm,
        bfq_pos_dist_of_not_wraps bfqd last r1.pos hw1,
        bfq_pos_dist_of_not_wraps bfqd last r2.pos hw2]
    simp [hlt, Nat.not_lt_of_lt hlt]
  · intro hs hm hw1 hw2
    have hne : r1 ≠ r2 := fun h => by simp [h, hw2] at hw1
    rw [bfq_choose_req_some_some bfqd r1 r2 last hne,
        bfq_choose_req_core_dist bfqd r1 r2 last hs hm,
        bfq_pos_dist_of_not_wraps bfqd last r1.pos hw1,
        bfq_pos_dist_of_wraps bfqd last r2.pos hw2]
  · intro hs hm hw1 hw2
    have hne : r1 ≠ r2 := fun h => by simp [h, hw2] at hw1
    rw [bfq_choose_req_some_some bfqd r1 r2 last hne,
        bfq_choose_req_core_dist bfqd r1 r2 last hs hm,
        bfq_pos_dist_of_wraps bfqd last r1.pos hw1,
        bfq_pos_dist_of_not_wraps bfqd last r2.pos hw2]
  · intro hs hm hw1 hw2 hlt
    have hne : r1 ≠ r2 := fun h => by rw [h] at hlt; exact lt_irrefl _ hlt
    rw [bfq_choose_req_some_some bfqd r1 r2 last hne,
        bfq_choose_req_core_dist bfqd r1 r2 last hs hm,
        bfq_pos_dist_of_wraps bfqd last r1.pos hw1,
        bfq_pos_dist_of_wraps bfqd last r2.pos hw2]
    simp [Nat.le_of_lt hlt]
  · intro hs hm hw1 hw2 hlt
    have hne : r1 ≠ r2 := fun h => by rw [h] at hlt; exact lt_irrefl _ hlt
    rw [bfq_choose_req_some_some bfqd r1 r2 last hne,
        bfq_choose_req_core_dist bfqd r1 r2 last hs hm,
        bfq_pos_dist_of_wraps bfqd last r1.pos hw1,
        bfq_pos_dist_of_wraps bfqd last r2.pos hw2]
    simp [Nat.not_le_of_lt hlt]

def c1rq1 : Request := ⟨1, 1100, 8, true, false⟩

def c1rq2 : Request := ⟨2, 1300, 8, true, false⟩

/-- Line 97: factor multiplying the sectors of an async request when the
request is charged to a non-weight-raised queue. -/
def bfq_async_charge_factor : Nat := 10

/-- The bfq_queue fields read by the embedded functions: the sync
classification (accessed through bfq_bfqq_sync), the weight-raising
coefficient and its period bookkeeping, the soft-real-time re-trigger
time, the budget bookkeeping (max_budget of the queue and budget of the
attached bfq_entity), whether the queue is linked to a bfq_io_cq
(bfqq->bic) and the cached next request. -/
structure BfqQueue where
  sync : Bool
  wr_coeff : Nat
  wr_cur_max_time : Nat
  last_wr_start_finish : Nat
  soft_rt_next_start : Nat
  max_budget : Nat
  budget : Nat
  has_bic : Bool
  next_rq : Option Request
deriving DecidableEq, Repr

def bfq_bfqq_sync (bfqq : BfqQueue) : Bool := bfqq.sync

/-- bfq_serv_to_charge, lines 467-474: the request's sector count times
(1 + (!sync) * (wr_coeff == 1) * bfq_async_charge_factor), with the two
boolean factors written as 0/1 values exactly as in the C expression. -/
def bfq_serv_to_charge (rq : Request) (bfqq : BfqQueue) : Nat :=
  rq.sectors *
    (1 + (!bfq_bfqq_sync bfqq).toNat *
      (if bfqq.wr_coeff = 1 then 1 else 0) * bfq_async_charge_factor)

/-- C2: the service charged for a request equals the sector count
multiplied by (1 + bfq_async_charge_factor), with the factor equal to 10,
exactly when the queue is async and not weight-raised, and equals the
plain sector count in every other case. -/
theorem bfq_serv_to_charge_spec (rq : Request) (bfqq : BfqQueue) :
    (bfq_bfqq_sync bfqq = false → bfqq.wr_coeff = 1 →
      bfq_serv_to_charge rq bfqq =
        rq.sectors * (1 + bfq_async_charge_factor)) ∧
    (bfq_bfqq_sync bfqq = true ∨ bfqq.wr_coeff ≠ 1 →
      bfq_serv_to_charge rq bfqq = rq.sectors) := by
  constructor
  · intro hs hw
    simp [bfq_serv_to_charge, hs, hw]
  · intro h
    rcases h with hs | hw
    · simp [bfq_serv_to_charge, hs]
    · simp [bfq_serv_to_charge, hw]

def c2rq : Request := ⟨3, 0, 64, false, false⟩

def c2q : BfqQueue := ⟨false, 1, 0, 0, 0, 16384, 0, false, none⟩

theorem bfq_serv_to_charge_spec_witness :
    bfq_bfqq_sync c2q = false ∧ c2q.wr_coeff = 1 ∧
    bfq_serv_to_charge c2rq c2q = 64 * (1 + bfq_async_charge_factor) :=
  ⟨rfl, rfl, (bfq_serv_to_charge_spec c2rq c2q).1 rfl rfl⟩

/-- bfq_updated_next_req, lines 487-516. The first component of the
result is the updated queue, the second records whether bfq_activate_bfqq
was invoked (the re-keying and re-activation in the service tree live in
bfq-sched.c; here the call itself is the observable event). The boolean
argument states whether the queue is bfqd->in_service_queue. -/
def bfq_updated_next_req (in_service : Bool) (bfqq : BfqQueue) :
    BfqQueue × Bool :=
  match bfqq.next_rq with
  | none => (bfqq, false)
  | some next_rq =>
    if in_service then (bfqq, false)
    else
      let new_budget := max bfqq.max_budget (bfq_serv_to_charge next_rq bfqq)
      if bfqq.budget ≠ new_budget then
        ({ bfqq with budget := new_budget }, true)
      else (bfqq, false)

/-- C5: when the queue is the in-service queue, bfq_updated_next_req
changes nothing and does not re-activate the entity; on a queue that is
not in service and has a next request, the entity budget becomes
max(max_budget, charge of next_rq) and bfq_activate_bfqq is invoked
exactly when that value differs from the old budget. -/
theorem bfq_updated_next_req_frame (bfqq : BfqQueue) :
    bfq_updated_next_req true bfqq = (bfqq, false) ∧
    (∀ rq, bfqq.next_rq = some rq →
      (bfq_updated_next_req false bfqq).1.budget =
        max bfqq.max_budget (bfq_serv_to_charge rq bfqq) ∧
      ((bfq_updated_next_req false bfqq).2 = true ↔
        bfqq.budget ≠ max bfqq.max_budget (bfq_serv_to_charge rq bfqq))) := by
  constructor
  · unfold bfq_updated_next_req
    cases bfqq.next_rq <;> simp
  · intro rq hrq
    unfold bfq_updated_next_req
    rw [hrq]
    by_cases h : bfqq.budget = max bfqq.max_budget (bfq_serv_to_charge rq bfqq)
    · simp [h]
    · simp [h]

def c5rq : Request := ⟨4, 100, 32, true, false⟩

def c5q : BfqQueue := ⟨true, 1, 0, 0, 0, 16384, 0, true, some c5rq⟩

theorem bfq_updated_next_req_frame_witness :
    c5q.next_rq = some c5rq ∧
    (bfq_updated_next_req false c5q).1.budget =
      max c5q.max_budget (bfq_serv_to_charge c5rq c5q) :=
  ⟨rfl, ((bfq_updated_next_req_frame c5q).2 c5rq rfl).1⟩

/-- The bfq_data fields read by the weight-raising update that
bfq_add_request performs on an idle-to-busy transition (lines 796-909):
the low_latency master switch and the weight-raising tunables.
`wr_duration` stands for the value bfq_wr_duration(bfqd) used at lines
832 and 842, `jiffies` for the current tick. -/
structure WrParams where
  low_latency : Bool
  bfq_wr_coeff : Nat
  bfq_wr_rt_max_time : Nat
  bfq_wr_max_softrt_rate : Nat
  wr_duration : Nat
  jiffies : Nat
deriving DecidableEq, Repr

/-- Lines 797-799: the soft-real-time trigger, evaluated after burst
handling with the queue's current in_large_burst flag. -/
def bfq_soft_rt (p : WrParams) (in_burst : Bool) (bfqq : BfqQueue) : Bool :=
  decide (0 < p.bfq_wr_max_softrt_rate) && !in_burst &&
    decide (bfqq.soft_rt_next_start < p.jiffies)

/-- Line 800: the interactive trigger. -/
def bfq_interactive (in_burst idle_for_long_time : Bool) : Bool :=
  !in_burst && idle_for_long_time

/-- The weight-raising update of bfq_add_request, lines 816-909: skipped
entirely when low_latency is off; otherwise a non-raised queue starts
raising when a trigger fires, and an already-raised queue has its period
refreshed, its raising ended (wr_coeff reset to 1) when it sits in a
large burst or its soft-rt period ran out, or its soft-rt period
recharged. -/
def bfq_add_request_wr (p : WrParams) (in_burst idle_for_long_time : Bool)
    (bfqq : BfqQueue) : BfqQueue :=
  let old_wr_coeff := bfqq.wr_coeff
  let soft_rt := bfq_soft_rt p in_burst bfqq
  let interactive := bfq_interactive in_burst idle_for_long_time
  if !p.low_latency then bfqq
  else if decide (old_wr_coeff = 1) && (interactive || soft_rt) &&
          (!bfqq.sync || bfqq.has_bic) then
    { bfqq with
        wr_coeff := p.bfq_wr_coeff,
        wr_cur_max_time :=
          if interactive then p.wr_duration else p.bfq_wr_rt_max_time }
  else if old_wr_coeff > 1 then
    if interactive then { bfqq with wr_cur_max_time := p.wr_duration }
    else if in_burst ||
            (decide (bfqq.wr_cur_max_time = p.bfq_wr_rt_max_time) &&
             !soft_rt) then
      { bfqq with wr_coeff := 1 }
    else if decide (bfqq.last_wr_start_finish + bfqq.wr_cur_max_time <
               p.jiffies + p.bfq_wr_rt_max_time) && soft_rt then
      { bfqq with
          last_wr_start_finish := p.jiffies,
          wr_cur_max_time := p.bfq_wr_rt_max_time }
    else bfqq
  else bfqq

def c4p : WrParams := ⟨false, 30, 300, 7000, 8000, 100000⟩

def c4q : BfqQueue := ⟨true, 30, 300, 0, 0, 16384, 0, true, none⟩

/-- C4 counterexample: with low_latency disabled, an execution of the
idle-to-busy path of bfq_add_request leaves a weight-raised queue raised
even though the queue is in a large burst: wr_coeff stays 30 instead of
being reset to 1, because line 816 skips the whole weight-raising update. -/
theorem bfq_add_request_wr_in_burst_cex :
    c4q.wr_coeff > 1 ∧
    ¬ (bfq_add_request_wr c4p true false c4q).wr_coeff = 1 := by decide

/-- C4 (amended): on an idle-to-busy transition of a queue in a large
burst, neither the interactive nor the soft-real-time trigger fires, and,
provided low_latency is enabled, a previously weight-raised queue has its
wr_coeff reset to 1; with low_latency disabled bfq_add_request leaves the
weight-raising state untouched. -/
theorem bfq_add_request_wr_in_burst (p : WrParams) (idle : Bool)
    (bfqq : BfqQueue) :
    bfq_interactive true idle = false ∧
    bfq_soft_rt p true bfqq = false ∧
    (p.low_latency = true → 1 ≤ bfqq.wr_coeff →
      (bfq_add_request_wr p true idle bfqq).wr_coeff = 1) ∧
    (p.low_latency = false → bfq_add_request_wr p true idle bfqq = bfqq) := by
  have hi : bfq_interactive true idle = false := by simp [bfq_interactive]
  have hs : bfq_soft_rt p true bfqq = false := by simp [bfq_soft_rt]
  refine ⟨hi, hs, ?_, ?_⟩
  · intro hll hwr
    rcases Nat.lt_or_ge 1 bfqq.wr_coeff with h | h
    · simp [bfq_add_request_wr, hll, hi, hs, h, Nat.ne_of_gt h]
    · have h1 : bfqq.wr_coeff = 1 := Nat.le_antisymm h hwr
      simp [bfq_add_request_wr, hll, hi, hs, h1]
  · intro hll
    simp [bfq_add_request_wr, hll]

def c4p2 : WrParams := ⟨true, 30, 300, 7000, 8000, 100000⟩

theorem bfq_add_request_wr_in_burst_witness :
    c4p2.low_latency = true ∧ 1 ≤ c4q.wr_coeff ∧
    (bfq_add_request_wr c4p2 true false c4q).wr_coeff = 1 :=
  ⟨rfl, by decide,
   (bfq_add_request_wr_in_burst c4p2 false c4q).2.2.1 rfl (by decide)⟩

theorem bfq_choose_req_preference_witness :
    c1rq1.sync = c1rq2.sync ∧ c1rq1.meta = c1rq2.meta ∧
    bfq_rq_wraps (16384 * 2) 1000 c1rq1.pos = false ∧
    bfq_rq_wraps (16384 * 2) 1000 c1rq2.pos = false ∧
    bfq_rq_dist (16384 * 2) 2 1000 c1rq1.pos <
      bfq_rq_dist (16384 * 2) 2 1000 c1rq2.pos ∧
    bfq_choose_req ⟨16384, 2⟩ (some c1rq1) (some c1rq2) 1000 = some c1rq1 :=
  ⟨rfl, rfl, by decide, by decide, by decide,
   (bfq_choose_req_preference ⟨16384, 2⟩ c1rq1 c1rq2 1000).2.2.2.2.1 rfl rfl
     (by decide) (by decide) (by decide)⟩

/-- A bfq_entity as seen by the weights-tree functions: its weight and
its association with a weight counter. Counters are keyed uniquely by
weight in the tree, and the code asserts weight_counter->weight ==
entity->weight on removal, so the association is recorded here as the
counter's key. -/
structure BfqEntity where
  weight : Nat
  weight_counter : Option Nat
deriving DecidableEq, Repr

/-- The walk of bfq_weights_tree_add over the rb tree of weight counters
(lines 389-409), acting on the tree's sorted (weight, num_active)
sequence: find the counter carrying the entity's weight and increment its
num_active, or create a fresh counter with num_active = 1 at the sorted
position. -/
def weights_insert (w : Nat) : List (Nat × Nat) → List (Nat × Nat)
  | [] => [(w, 1)]
  | (w0, n0) :: rest =>
    if w = w0 then (w0, n0 + 1) :: rest
    else if w < w0 then (w, 1) :: (w0, n0) :: rest
    else (w0, n0) :: weights_insert w rest

/-- bfq_weights_tree_add, lines 367-413: a no-op on an entity already
associated with a counter (lines 386-387), otherwise the counter for the
entity's weight is found or created and the entity is associated with
it. -/
def bfq_weights_tree_add (entity : BfqEntity) (root : List (Nat × Nat)) :
    BfqEntity × List (Nat × Nat) :=
  if entity.weight_counter.isSome then (entity, root)
  else ({ entity with weight_counter := some entity.weight },
        weights_insert entity.weight root)

/-- The decrement-and-maybe-erase step of bfq_weights_tree_remove (lines
431-437) on the counter keyed `w`. -/
def weights_erase_dec (w : Nat) : List (Nat × Nat) → List (Nat × Nat)
  | [] => []
  | (w0, n0) :: rest =>
    if w = w0 then (if n0 - 1 > 0 then (w0, n0 - 1) :: rest else rest)
    else (w0, n0) :: weights_erase_dec w rest

/-- bfq_weights_tree_remove, lines 421-441: a no-op on an entity with no
counter, otherwise its counter's num_active is decremented, the counter
is erased from the tree on reaching zero, and the entity's association is
cleared. -/
def bfq_weights_tree_remove (entity : BfqEntity) (root : List (Nat × Nat)) :
    BfqEntity × List (Nat × Nat) :=
  match entity.weight_counter with
  | none => (entity, root)
  | some w => ({ entity with weight_counter := none },
               weights_erase_dec w root)

/-- C6: bfq_weights_tree_add is idempotent: an entity already associated
with a counter leaves the tree and every num_active count unchanged, and
calling the function twice in a row for the same entity has exactly the
effect of calling it once. -/
theorem bfq_weights_tree_add_idem (entity : BfqEntity)
    (root : List (Nat × Nat)) :
    (entity.weight_counter.isSome = true →
      bfq_weights_tree_add entity root = (entity, root)) ∧
    bfq_weights_tree_add (bfq_weights_tree_add entity root).1
        (bfq_weights_tree_add entity root).2 =
      bfq_weights_tree_add entity root := by
  constructor
  · intro h
    unfold bfq_weights_tree_add
    rw [if_pos h]
  · by_cases h : entity.weight_counter.isSome = true
    · have h1 : bfq_weights_tree_add entity root = (entity, root) := by
        unfold bfq_weights_tree_add; rw [if_pos h]
      rw [h1]
      simpa using h1
    · have h1 : bfq_weights_tree_add entity root =
          ({ entity with weight_counter := some entity.weight },
           weights_insert entity.weight root) := by
        unfold bfq_weights_tree_add
        rw [if_neg h]
      rw [h1]
      simp [bfq_weights_tree_add]

def c6e : BfqEntity := ⟨5, some 5⟩

theorem bfq_weights_tree_add_idem_witness :
    c6e.weight_counter.isSome = true ∧
    bfq_weights_tree_add c6e [(5, 1)] = (c6e, [(5, 1)]) :=
  ⟨rfl, (bfq_weights_tree_add_idem c6e [(5, 1)]).1 rfl⟩

theorem weights_erase_dec_insert (w : Nat) (root : List (Nat × Nat))
    (hpos : ∀ p ∈ root, 0 < p.2) :
    weights_erase_dec w (weights_insert w root) = root := by
  induction root with
  | nil => simp [weights_insert, weights_erase_dec]
  | cons p rest ih =>
    obtain ⟨w0, n0⟩ := p
    by_cases h : w = w0
    · subst h
      have hn : 0 < n0 := hpos (w, n0) (List.mem_cons_self _ _)
      simp [weights_insert, weights_erase_dec, hn]
    · by_cases h2 : w < w0
      · simp [weights_insert, weights_erase_dec, h, h2]
      · simp [weights_insert, weights_erase_dec, h, h2]
        exact ih fun q hq => hpos q (List.mem_cons_of_mem _ hq)

/-- The keys (weights) carried by the counters of a weights tree. -/
def weights_keys (root : List (Nat × Nat)) : List Nat := root.map Prod.fst

theorem weights_insert_keys (w : Nat) (root : List (Nat × Nat)) (x : Nat) :
    x ∈ weights_keys (weights_insert w root) ↔
      x = w ∨ x ∈ weights_keys root := by
  induction root with
  | nil => simp [weights_insert, weights_keys]
  | cons p rest ih =>
    obtain ⟨w0, n0⟩ := p
    by_cases h : w = w0
    · subst h
      simp [weights_insert, weights_keys]
    · by_cases h2 : w < w0
      · simp [weights_insert, weights_keys, h, h2]
      · simp only [weights_keys, List.map_cons] at ih ⊢
        simp [weights_insert, h, h2, ih]
        tauto

/-- The sortedness invariant of the red-black tree of weight counters:
the counters appear in strictly increasing weight order. -/
def weights_sorted (root : List (Nat × Nat)) : Prop :=
  List.Pairwise (fun a b => a < b) (weights_keys root)

theorem weights_insert_sorted (w : Nat) (root : List (Nat × Nat))
    (h : weights_sorted root) : weights_sorted (weights_insert w root) := by
  induction root with
  | nil =>
    simp [weights_insert, weights_sorted, weights_keys]
  | cons p rest ih =>
    obtain ⟨w0, n0⟩ := p
    simp only [weights_sorted, weights_keys, List.map_cons,
               List.pairwise_cons] at h
    obtain ⟨h1, hrest⟩ := h
    by_cases hw : w = w0
    · subst hw
      rw [show weights_insert w ((w, n0) :: rest) = (w, n0 + 1) :: rest from
            by simp [weights_insert]]
      simp only [weights_sorted, weights_keys, List.map_cons,
                 List.pairwise_cons]
      exact ⟨h1, hrest⟩
    · by_cases hlt : w < w0
      · simp only [weights_insert, if_neg hw, if_pos hlt]
        simp only [weights_sorted, weights_keys, List.map_cons,
                   List.pairwise_cons]
        refine ⟨?_, h1, hrest⟩
        intro b hb
        rcases List.mem_cons.mp hb with rfl | hb2
        · exact hlt
        · exact lt_trans hlt (h1 b hb2)
      · have hgt : w0 < w := by omega
        simp only [weights_insert, if_neg hw, if_neg hlt]
        simp only [weights_sorted, weights_keys, List.map_cons,
                   List.pairwise_cons]
        refine ⟨?_, ih hrest⟩
        intro b hb
        rcases (weights_insert_keys w rest b).mp hb with rfl | hb2
        · exact hgt
        · exact h1 b hb2

theorem weights_insert_length (w : Nat) (root : List (Nat × Nat))
    (hs : weights_sorted root) :
    (weights_insert w root).length =
      if w ∈ weights_keys root then root.length else root.length + 1 := by
  induction root with
  | nil => simp [weights_insert, weights_keys]
  | cons p rest ih =>
    obtain ⟨w0, n0⟩ := p
    simp only [weights_sorted, weights_keys, List.map_cons,
               List.pairwise_cons] at hs
    obtain ⟨h1, hrest⟩ := hs
    by_cases h : w = w0
    · subst h
      simp [weights_insert, weights_keys]
    · by_cases h2 : w < w0
      · have hnm : w ∉ List.map Prod.fst rest := fun hm => by
          have := h1 w hm; omega
        simp [weights_insert, weights_keys, h, h2, hnm]
      · have h3 := ih hrest
        have hmem : w ∈ weights_keys ((w0, n0) :: rest) ↔
            w ∈ weights_keys rest := by
          simp [weights_keys, h]
        by_cases h4 : w ∈ weights_keys rest
        · simp [weights_insert, h, h2, h3, hmem, h4]
        · simp [weights_insert, h, h2, h3, hmem, h4]

/-- The weights tree built by calling bfq_weights_tree_add once for a
fresh (not yet tracked) entity of each weight in `ws`, starting from the
empty tree. -/
def weights_build : List Nat → List (Nat × Nat)
  | [] => []
  | w :: ws => (bfq_weights_tree_add ⟨w, none⟩ (weights_build ws)).2

theorem weights_build_keys (ws : List Nat) (x : Nat) :
    x ∈ weights_keys (weights_build ws) ↔ x ∈ ws := by
  induction ws with
  | nil => simp [weights_build, weights_keys]
  | cons w ws ih =>
    simp [weights_build, bfq_weights_tree_add, weights_insert_keys, ih]

theorem weights_build_sorted (ws : List Nat) :
    weights_sorted (weights_build ws) := by
  induction ws with
  | nil => simp [weights_build, weights_sorted, weights_keys]
  | cons w ws ih =>
    have hb2 : (bfq_weights_tree_add ⟨w, none⟩ (weights_build ws)).2 =
        weights_insert w (weights_build ws) := by
      simp [bfq_weights_tree_add]
    simp only [weights_build]
    rw [hb2]
    exact weights_insert_sorted w _ ih

theorem weights_build_length (ws : List Nat) :
    (weights_build ws).length = ws.dedup.length := by
  induction ws with
  | nil => simp [weights_build]
  | cons w ws ih =>
    have hb2 : (bfq_weights_tree_add ⟨w, none⟩ (weights_build ws)).2 =
        weights_insert w (weights_build ws) := by
      simp [bfq_weights_tree_add]
    simp only [weights_build]
    rw [hb2, weights_insert_length w _ (weights_build_sorted ws)]
    by_cases h : w ∈ ws
    · rw [List.dedup_cons_of_mem h]
      simp [(weights_build_keys ws w).mpr h, ih]
    · rw [List.dedup_cons_of_not_mem h]
      have hk : w ∉ weights_keys (weights_build ws) := fun hc =>
        h ((weights_build_keys ws w).mp hc)
      simp [hk, ih]

/-- C7: for an untracked entity, bfq_weights_tree_add followed by
bfq_weights_tree_remove restores the weight-counter tree exactly — in a
tree all of whose counters count at least one active entity — and leaves
the entity's weight_counter null; and the tree built by adding one fresh
entity per weight of a list has exactly one node per distinct weight. -/
theorem bfq_weights_tree_round_trip (entity : BfqEntity)
    (root : List (Nat × Nat)) (ws : List Nat) :
    (entity.weight_counter = none → (∀ p ∈ root, 0 < p.2) →
      bfq_weights_tree_remove (bfq_weights_tree_add entity root).1
          (bfq_weights_tree_add entity root).2 =
        (entity, root)) ∧
    (weights_build ws).length = ws.dedup.length := by
  refine ⟨?_, weights_build_length ws⟩
  intro h0 hpos
  obtain ⟨ew, ewc⟩ := entity
  cases ewc with
  | some w => simp at h0
  | none =>
    simp [bfq_weights_tree_add, bfq_weights_tree_remove,
          weights_erase_dec_insert ew root hpos]

def c7e : BfqEntity := ⟨7, none⟩

theorem bfq_weights_tree_round_trip_witness :
    c7e.weight_counter = none ∧ (∀ p ∈ [((5 : Nat), (2 : Nat))], 0 < p.2) ∧
    bfq_weights_tree_remove (bfq_weights_tree_add c7e [(5, 2)]).1
        (bfq_weights_tree_add c7e [(5, 2)]).2 = (c7e, [(5, 2)]) :=
  ⟨rfl, by decide,
   (bfq_weights_tree_round_trip c7e [(5, 2)] []).1 rfl (by decide)⟩

/-- The burst-detection state of a bfq_data (lines 531-742): the hlist of
queues in the current burst (a list of queue identifiers, head first),
the burst size counter, the large_burst mode flag, and the set of queues
whose in_large_burst flag is set (a list of queue identifiers). -/
structure BurstState where
  burst_list : List Nat
  burst_size : Nat
  large_burst : Bool
  marked : List Nat
deriving DecidableEq, Repr

/-- bfq_mark_bfqq_in_large_burst: set the queue's in_large_burst flag. -/
def bfq_mark_bfqq_in_large_burst (q : Nat) (st : BurstState) : BurstState :=
  if q ∈ st.marked then st else { st with marked := q :: st.marked }

/-- bfq_clear_bfqq_in_large_burst: clear the queue's in_large_burst
flag. -/
def bfq_clear_bfqq_in_large_burst (q : Nat) (st : BurstState) : BurstState :=
  { st with marked := st.marked.filter (fun x => x != q) }

/-- bfq_reset_burst_list, lines 532-541: empty the burst list and insert
just the newly activated queue, with burst_size 1. -/
def bfq_reset_burst_list (st : BurstState) (q : Nat) : BurstState :=
  { st with burst_list := [q], burst_size := 1 }

/-- bfq_add_to_burst, lines 544-580: increment burst_size; on reaching
bfq_large_burst_thresh enter large-burst mode, mark every queue of the
burst list and the new queue as in_large_burst and delete the burst list,
otherwise prepend the new queue to the burst list. -/
def bfq_add_to_burst (thresh : Nat) (st : BurstState) (q : Nat) :
    BurstState :=
  let st1 := { st with burst_size := st.burst_size + 1 }
  if st1.burst_size = thresh then
    let st2 := { st1 with large_burst := true }
    let st3 := st2.burst_list.foldl
      (fun s i => bfq_mark_bfqq_in_large_burst i s) st2
    let st4 := bfq_mark_bfqq_in_large_burst q st3
    { st4 with burst_list := [] }
  else
    { st1 with burst_list := q :: st1.burst_list }

/-- The bfq_data time fields read by bfq_handle_burst: the large-burst
threshold, the burst interval, the time of the last insertion in the
burst, and the current jiffies; time_is_before_jiffies(last + interval)
is last + interval < jiffies. -/
structure BurstParams where
  bfq_large_burst_thresh : Nat
  bfq_burst_interval : Nat
  last_ins_in_burst : Nat
  jiffies : Nat
deriving DecidableEq, Repr

/-- The unconditional first step of bfq_handle_burst on a long-idle queue
(lines 693-696): remove the queue from the burst list and clear its
in_large_burst flag. -/
def bfq_burst_forget (q : Nat) (st : BurstState) : BurstState :=
  bfq_clear_bfqq_in_large_burst q
    { st with burst_list := st.burst_list.filter (fun x => x != q) }

/-- bfq_handle_burst, lines 678-742: forget a long-idle queue first; do
nothing if the queue is already listed or marked; on a late activation
leave large-burst mode and reset the burst list to the queue alone;
within the interval, either mark the queue immediately (large-burst mode)
or add it to the burst. -/
def bfq_handle_burst (p : BurstParams) (st : BurstState) (q : Nat)
    (idle_for_long_time : Bool) : BurstState :=
  let st1 := if idle_for_long_time then bfq_burst_forget q st else st
  if q ∈ st1.burst_list ∨ q ∈ st1.marked then st1
  else if p.last_ins_in_burst + p.bfq_burst_interval < p.jiffies then
    bfq_reset_burst_list { st1 with large_burst := false } q
  else if st1.large_burst then
    bfq_mark_bfqq_in_large_burst q st1
  else
    bfq_add_to_burst p.bfq_large_burst_thresh st1 q

theorem mark_burst_list (q : Nat) (st : BurstState) :
    (bfq_mark_bfqq_in_large_burst q st).burst_list = st.burst_list := by
  unfold bfq_mark_bfqq_in_large_burst
  split <;> rfl

theorem mark_large_burst (q : Nat) (st : BurstState) :
    (bfq_mark_bfqq_in_large_burst q st).large_burst = st.large_burst := by
  unfold bfq_mark_bfqq_in_large_burst
  split <;> rfl

theorem mem_mark_self (q : Nat) (st : BurstState) :
    q ∈ (bfq_mark_bfqq_in_large_burst q st).marked := by
  unfold bfq_mark_bfqq_in_large_burst
  split
  · assumption
  · exact List.mem_cons_self _ _

theorem mem_mark_mono (i q : Nat) (st : BurstState) (h : i ∈ st.marked) :
    i ∈ (bfq_mark_bfqq_in_large_burst q st).marked := by
  unfold bfq_mark_bfqq_in_large_burst
  split
  · exact h
  · exact List.mem_cons_of_mem _ h

theorem foldl_mark_burst_list (l : List Nat) (st : BurstState) :
    (l.foldl (fun s i => bfq_mark_bfqq_in_large_burst i s) st).burst_list =
      st.burst_list := by
  induction l generalizing st with
  | nil => rfl
  | cons a l ih => rw [List.foldl_cons, ih, mark_burst_list]

theorem foldl_mark_large_burst (l : List Nat) (st : BurstState) :
    (l.foldl (fun s i => bfq_mark_bfqq_in_large_burst i s) st).large_burst =
      st.large_burst := by
  induction l generalizing st with
  | nil => rfl
  | cons a l ih => rw [List.foldl_cons, ih, mark_large_burst]

theorem mem_foldl_mark_mono (l : List Nat) (st : BurstState) (i : Nat)
    (h : i ∈ st.marked) :
    i ∈ (l.foldl (fun s i => bfq_mark_bfqq_in_large_burst i s) st).marked := by
  induction l generalizing st with
  | nil => exact h
  | cons a l ih => exact ih _ (mem_mark_mono i a st h)

theorem mem_foldl_mark (l : List Nat) (st : BurstState) (i : Nat)
    (h : i ∈ l) :
    i ∈ (l.foldl (fun s i => bfq_mark_bfqq_in_large_burst i s) st).marked := by
  induction l generalizing st with
  | nil => cases h
  | cons a l ih =>
    rcases List.mem_cons.mp h with rfl | h2
    · exact mem_foldl_mark_mono l _ i (mem_mark_self i st)
    · exact ih _ h2

/-- C3: when the burst size reaches bfq_large_burst_thresh, every queue
of the burst list and the newly activated queue are marked
in_large_burst, the burst list is emptied and large-burst mode is
entered; a queue activating within the burst interval while the device is
in large-burst mode is marked immediately with the burst list left
unchanged; and below the threshold the new queue is only added to the
burst list, with no queue marked and the mode unchanged. -/
theorem bfq_burst_threshold (thresh : Nat) (p : BurstParams)
    (st : BurstState) (q : Nat) :
    (st.burst_size + 1 = thresh →
      (bfq_add_to_burst thresh st q).large_burst = true ∧
      (∀ i ∈ st.burst_list, i ∈ (bfq_add_to_burst thresh st q).marked) ∧
      q ∈ (bfq_add_to_burst thresh st q).marked ∧
      (bfq_add_to_burst thresh st q).burst_list = []) ∧
    (st.large_burst = true → q ∉ st.burst_list → q ∉ st.marked →
      ¬ p.last_ins_in_burst + p.bfq_burst_interval < p.jiffies →
      bfq_handle_burst p st q false = bfq_mark_bfqq_in_large_burst q st ∧
      q ∈ (bfq_handle_burst p st q false).marked ∧
      (bfq_handle_burst p st q false).burst_list = st.burst_list) ∧
    (st.burst_size + 1 < thresh →
      bfq_add_to_burst thresh st q =
        { st with burst_size := st.burst_size + 1,
                  burst_list := q :: st.burst_list }) := by
  refine ⟨?_, ?_, ?_⟩
  · intro h
    have hc : ({ st with burst_size := st.burst_size + 1 } :
        BurstState).burst_size = thresh := h
    have e1 : bfq_add_to_burst thresh st q =
        { bfq_mark_bfqq_in_large_burst q
            (st.burst_list.foldl
              (fun s i => bfq_mark_bfqq_in_large_burst i s)
              { st with burst_size := st.burst_size + 1,
                        large_burst := true })
          with burst_list := [] } := by
      unfold bfq_add_to_burst
      rw [if_pos hc]
    rw [e1]
    refine ⟨?_, ?_, ?_, rfl⟩
    · show (bfq_mark_bfqq_in_large_burst q _).large_burst = true
      rw [mark_large_burst, foldl_mark_large_burst]
    · intro i hi
      show i ∈ (bfq_mark_bfqq_in_large_burst q _).marked
      exact mem_mark_mono i q _ (mem_foldl_mark st.burst_list _ i hi)
    · show q ∈ (bfq_mark_bfqq_in_large_burst q _).marked
      exact mem_mark_self q _
  · intro hlb hnl hnm hlate
    have e1 : bfq_handle_burst p st q false =
        bfq_mark_bfqq_in_large_burst q st := by
      show (if q ∈ st.burst_list ∨ q ∈ st.marked then st
            else if p.last_ins_in_burst + p.bfq_burst_interval <
                p.jiffies then
              bfq_reset_burst_list { st with large_burst := false } q
            else if st.large_burst then bfq_mark_bfqq_in_large_burst q st
            else bfq_add_to_burst p.bfq_large_burst_thresh st q) =
          bfq_mark_bfqq_in_large_burst q st
      rw [if_neg (not_or.mpr ⟨hnl, hnm⟩), if_neg hlate, if_pos hlb]
    exact ⟨e1, by rw [e1]; exact mem_mark_self q st,
           by rw [e1]; exact mark_burst_list q st⟩
  · intro h
    have hc : ¬ ({ st with burst_size := st.burst_size + 1 } :
        BurstState).burst_size = thresh := Nat.ne_of_lt h
    unfold bfq_add_to_burst
    rw [if_neg hc]

def c3st : BurstState := ⟨[1, 2], 2, false, []⟩

theorem bfq_burst_threshold_witness :
    c3st.burst_size + 1 = 3 ∧
    (bfq_add_to_burst 3 c3st 7).large_burst = true ∧
    (bfq_add_to_burst 3 c3st 7).burst_list = [] := by
  have h := (bfq_burst_threshold 3 ⟨3, 100, 0, 50⟩ c3st 7).1 (by decide)
  exact ⟨by decide, h.1, h.2.2.2⟩

/-- C10: on a long-idle activation, bfq_handle_burst first
unconditionally removes the queue from the burst list and clears its
in_large_burst flag, before any burst decision: its result coincides with
running bfq_handle_burst without the long-idle flag on the state where
the queue was forgotten, and in that intermediate state the queue is
neither in the burst list nor marked in_large_burst. -/
theorem bfq_handle_burst_long_idle (p : BurstParams) (st : BurstState)
    (q : Nat) :
    bfq_handle_burst p st q true =
      bfq_handle_burst p (bfq_burst_forget q st) q false ∧
    decide (q ∈ (bfq_burst_forget q st).burst_list) = false ∧
    decide (q ∈ (bfq_burst_forget q st).marked) = false := by
  refine ⟨rfl, ?_, ?_⟩
  · apply decide_eq_false
    intro hmem
    simp [bfq_burst_forget, bfq_clear_bfqq_in_large_burst,
          List.mem_filter] at hmem
  · apply decide_eq_false
    intro hmem
    simp [bfq_burst_forget, bfq_clear_bfqq_in_large_burst,
          List.mem_filter] at hmem

end BFQ
